import Mathlib

/-!
Verification of the Photan repository (src/core.py and
src/analysis_functions.py) against its natural-language specification.

Numeric model: Python/numpy floating-point values are modelled as exact
rationals (`ℚ`) for the event-window extraction code, whose semantics are
pure index arithmetic and exact equality tests, and as real numbers plus an
explicit non-finite marker (`PyFloat`) for the z-score computation, where
division by zero produces IEEE Inf/NaN.
-/

/-- Python `int()` applied to a numeric value: truncation toward zero
(floor for nonnegative arguments, `-⌊-q⌋ = ⌈q⌉` for negative ones). -/
def pyInt (q : ℚ) : ℤ := if q < 0 then -⌊-q⌋ else ⌊q⌋

/-- Python/numpy sequence slicing `l[s:e]` with step 1: a negative bound is
first shifted by `len(l)`, then both bounds are clamped to `[0, len(l)]`,
and the half-open index range from `s'` to `e'` is taken. -/
def pySlice {α : Type} (l : List α) (s e : ℤ) : List α :=
  let n : ℤ := l.length
  let s' : ℤ := if s < 0 then max (n + s) 0 else min s n
  let e' : ℤ := if e < 0 then max (n + e) 0 else min e n
  (l.take e'.toNat).drop s'.toNat

/-- The `cont_var` class of src/core.py (the `photometry` subclass adds no
fields).  `signal` is element-generic so that the same record serves the
rational-valued extraction model and the `PyFloat`-valued conditioning
model; `annotations` (a Python dict of metadata) is modelled as an optional
association list, and is never inspected by any operation. -/
structure cont_var (α : Type) where
  sr : ℚ
  signal : List α
  timestamps : List ℚ
  name : Option String
  annotations : Option (List (String × String))

/-- `np.where(ts == v)[0][0]` of src/analysis_functions.py line 42: the
index of the first exact match of `v` in `ts`, or `none` when there is no
match (numpy raises `IndexError` on the empty match array). -/
def npWhereFirst (ts : List ℚ) (v : ℚ) : Option ℕ :=
  match ts with
  | [] => none
  | t :: rest => if t = v then some 0 else (npWhereFirst rest v).map (· + 1)

/-- Lines 43-45 / 50-52 of src/analysis_functions.py: the window slice
around reference value `i` (a resolved sample index in timestamp mode, the
raw reference value in index mode):
`data.signal[int(i - abs(min_max[0])*data.sr) : int(i + abs(min_max[1])*data.sr)]`. -/
def windowSlice {α : Type} (data : cont_var α) (i : ℚ) (min_max : ℚ × ℚ) : List α :=
  pySlice data.signal (pyInt (i - |min_max.1| * data.sr)) (pyInt (i + |min_max.2| * data.sr))

/-- The timestamp-mode loop of `cont_var_peh` (lines 40-46): each event is
resolved to the first exact match in `data.timestamps`; a missing event
raises `IndexError`, aborting the whole call (modelled by `none`). -/
def extractTs {α : Type} (data : cont_var α) (ref_ts : List ℚ) (min_max : ℚ × ℚ) :
    Option (List (List α)) :=
  match ref_ts with
  | [] => some []
  | event :: rest =>
    match npWhereFirst data.timestamps event with
    | none => none
    | some i => (extractTs data rest min_max).map (windowSlice data (i : ℚ) min_max :: ·)

/-- The `trials` list built by `cont_var_peh` (lines 38-53), in both modes.
Index mode (`idx = true`, lines 48-53) slices directly at each reference
value and cannot fail. -/
def extractTrials {α : Type} (data : cont_var α) (ref_ts : List ℚ) (min_max : ℚ × ℚ)
    (idx : Bool) : Option (List (List α)) :=
  if idx then some (ref_ts.map fun event => windowSlice data event min_max)
  else extractTs data ref_ts min_max

/-- Number of columns `pd.DataFrame` gives a list of rows: the maximum row
length (0 for no rows). -/
def maxLen {α : Type} (trials : List (List α)) : ℕ :=
  trials.foldr (fun r acc => max r.length acc) 0

/-- One `pd.DataFrame` row: the row's entries, then missing-value markers
(`NaN`, modelled as `none`) up to the common width `w`. -/
def padRow {α : Type} (w : ℕ) (row : List α) : List (Option α) :=
  row.map some ++ List.replicate (w - row.length) none

/-- `pd.DataFrame(trials)` (line 55): rows in insertion order, ragged rows
padded with the missing-value marker to the maximum row length. -/
def toTrialMatrix {α : Type} (trials : List (List α)) : List (List (Option α)) :=
  trials.map (padRow (maxLen trials))

set_option linter.unusedVariables false in
/-- `cont_var_peh` of src/analysis_functions.py (lines 37-57): extract the
trial rows and assemble them into the padded trial matrix.  The `name`
parameter is accepted and unused, as in the source. -/
def cont_var_peh {α : Type} (data : cont_var α) (ref_ts : List ℚ) (min_max : ℚ × ℚ)
    (name : Option String) (idx : Bool) : Option (List (List (Option α))) :=
  (extractTrials data ref_ts min_max idx).map toTrialMatrix

-- Concrete recordings used by counterexamples and witnesses.

/-- A ten-sample recording at sampling rate 2 with `signal[k] = k` and
timestamps `0.0, 0.5, ..., 4.5`. -/
def dataC1 : cont_var ℚ :=
  ⟨2, [0, 1, 2, 3, 4, 5, 6, 7, 8, 9],
    [0, 1/2, 1, 3/2, 2, 5/2, 3, 7/2, 4, 9/2], none, none⟩

/-- A fifteen-sample recording at sampling rate 10 with `signal[k] = k` and
timestamps `0.0, 0.1, ..., 1.4`. -/
def dataC3 : cont_var ℚ :=
  ⟨10, [0, 1, 2, 3, 4, 5, 6, 7, 8, 9, 10, 11, 12, 13, 14],
    [0, 1/10, 2/10, 3/10, 4/10, 5/10, 6/10, 7/10, 8/10, 9/10, 1, 11/10, 12/10, 13/10, 14/10],
    none, none⟩

/-! ## The conditioning model (src/core.py, `photometry` methods)

The z-score arithmetic is carried out on IEEE floats in numpy; we model a
float as either a finite real number or a non-finite value (`inf`, `-inf`
and `nan` are not distinguished: every claim only cares about finiteness). -/

/-- A numpy float64 value: finite, or non-finite (Inf/NaN). -/
inductive PyFloat : Type where
  | fin (x : ℝ)
  | nonfin

/-- The finite values of a float array, or `none` if some entry is
non-finite. -/
def finVals : List PyFloat → Option (List ℝ)
  | [] => some []
  | PyFloat.fin x :: rest => (finVals rest).map (x :: ·)
  | PyFloat.nonfin :: _ => none

/-- `np.mean`: the population mean (sum divided by length). -/
noncomputable def popMean (xs : List ℝ) : ℝ := xs.sum / xs.length

/-- `np.std` without Bessel correction, squared: the population variance,
the mean of the squared deviations from the population mean. -/
noncomputable def popVar (xs : List ℝ) : ℝ :=
  ((xs.map fun x => (x - popMean xs) ^ 2).sum) / xs.length

/-- `np.std`: the population standard deviation. -/
noncomputable def popStd (xs : List ℝ) : ℝ := Real.sqrt (popVar xs)

open Classical in
/-- Lines 174-176 of src/core.py: `(signal - np.mean(signal)) / np.std(signal)`.
On an all-finite signal each sample `x` becomes `(x - mean) / std`, which is
non-finite exactly when `std = 0` (then `x = mean` and `0/0` is NaN); a
signal already containing a non-finite entry propagates non-finite values
through mean and std to every output sample. -/
noncomputable def zscoreList (l : List PyFloat) : List PyFloat :=
  match finVals l with
  | some xs =>
    xs.map fun x =>
      if popStd xs = 0 then PyFloat.nonfin
      else PyFloat.fin ((x - popMean xs) / popStd xs)
  | none => l.map fun _ => PyFloat.nonfin

/-- The `btype` argument of `scipy.signal.butter`. -/
inductive BType : Type where
  | high
  | low
  deriving DecidableEq

/-- The `padtype` argument of `scipy.signal.filtfilt`. -/
inductive PadType : Type where
  | even
  | odd
  | constant
  deriving DecidableEq

/-- The scipy filtering facility used by src/core.py, kept abstract: the
spec treats Butterworth coefficient design plus zero-phase
forward-and-backward application as an external numeric dependency and does
not re-specify its internals.  `butter order cutoff btype fs` designs the
coefficients; `filtfilt coeffs padtype signal` applies them. -/
structure FilterLib : Type 1 where
  Coeffs : Type
  butter : ℕ → ℚ → BType → ℚ → Coeffs
  filtfilt : Coeffs → PadType → List PyFloat → List PyFloat

/-- `photometry.debleach` (src/core.py lines 117-137):
`b, a = butter(3, low, btype='high', fs=self.sr)`;
`self.signal = filtfilt(b, a, self.signal, padtype='even')`; returns `self`. -/
def debleach (flib : FilterLib) (p : cont_var PyFloat) (low : ℚ) : cont_var PyFloat :=
  { p with signal := flib.filtfilt (flib.butter 3 low BType.high p.sr) PadType.even p.signal }

/-- `photometry.lp_filter` (src/core.py lines 139-159):
`b, a = butter(3, high, btype='low', fs=self.sr)`;
`self.signal = filtfilt(b, a, self.signal, padtype='even')`; returns `self`. -/
def lp_filter (flib : FilterLib) (p : cont_var PyFloat) (high : ℚ) : cont_var PyFloat :=
  { p with signal := flib.filtfilt (flib.butter 3 high BType.low p.sr) PadType.even p.signal }

/-- `photometry.zscore` (src/core.py lines 161-178): replaces the signal by
its z-score and returns `self`. -/
noncomputable def zscore (p : cont_var PyFloat) : cont_var PyFloat :=
  { p with signal := zscoreList p.signal }

/-- A trivial concrete filtering facility (identity application), used to
instantiate hypotheses about the abstract scipy facility in witnesses. -/
def flib0 : FilterLib := ⟨Unit, fun _ _ _ _ => (), fun _ _ s => s⟩

/-- A two-sample constant recording over `PyFloat`, for z-score witnesses. -/
def zp0 : cont_var PyFloat :=
  ⟨1, [PyFloat.fin 2, PyFloat.fin 2], [0, 1], none, none⟩

/-! ## Helper lemmas about the extraction model -/

theorem npWhereFirst_eq_none_iff (ts : List ℚ) (v : ℚ) :
    npWhereFirst ts v = none ↔ v ∉ ts := by
  induction ts with
  | nil => simp [npWhereFirst]
  | cons t rest ih =>
    by_cases h : t = v
    · simp [npWhereFirst, h]
    · simp [npWhereFirst, h, Option.map_eq_none', ih, Ne.symm h]

theorem npWhereFirst_eq_some_iff (ts : List ℚ) (v : ℚ) (i : ℕ) :
    npWhereFirst ts v = some i ↔
      ts[i]? = some v ∧ ∀ k, k < i → ts[k]? ≠ some v := by
  induction ts generalizing i with
  | nil => simp [npWhereFirst]
  | cons t rest ih =>
    by_cases h : t = v
    · subst h
      simp only [npWhereFirst, if_pos rfl]
      cases i with
      | zero => simp
      | succ j =>
        constructor
        · intro h0
          exact absurd h0 (by simp)
        · rintro ⟨hget, hfirst⟩
          exact absurd (by simp : (t :: rest)[0]? = some t) (hfirst 0 (Nat.succ_pos j))
    · simp only [npWhereFirst, if_neg h, Option.map_eq_some']
      cases i with
      | zero =>
        constructor
        · rintro ⟨j, _, hj⟩
          omega
        · rintro ⟨hget, _⟩
          exact absurd (by simpa using hget) h
      | succ j =>
        constructor
        · rintro ⟨j', hj', hsucc⟩
          have hj'' : j' = j := by omega
          rw [hj''] at hj'
          obtain ⟨hget, hfirst⟩ := (ih j).mp hj'
          refine ⟨by simpa using hget, ?_⟩
          intro k hk
          cases k with
          | zero =>
            simp only [List.getElem?_cons_zero]
            intro hh
            exact h (by simpa using hh)
          | succ k' =>
            simpa using hfirst k' (by omega)
        · rintro ⟨hget, hfirst⟩
          refine ⟨j, (ih j).mpr ⟨by simpa using hget, ?_⟩, rfl⟩
          intro k hk
          have hk1 := hfirst (k + 1) (by omega)
          simpa using hk1

theorem extractTs_eq_none_iff {α : Type} (data : cont_var α) (ref_ts : List ℚ)
    (min_max : ℚ × ℚ) :
    extractTs data ref_ts min_max = none ↔
      ∃ r ∈ ref_ts, npWhereFirst data.timestamps r = none := by
  induction ref_ts with
  | nil => simp [extractTs]
  | cons event rest ih =>
    cases h : npWhereFirst data.timestamps event with
    | none => simp [extractTs, h]
    | some i => simp [extractTs, h, Option.map_eq_none', ih]

theorem extractTs_some_spec {α : Type} (data : cont_var α) (ref_ts : List ℚ)
    (min_max : ℚ × ℚ) (trials : List (List α))
    (h : extractTs data ref_ts min_max = some trials) :
    trials.length = ref_ts.length ∧
      ∀ j, j < ref_ts.length →
        ∃ i, npWhereFirst data.timestamps (ref_ts[j]?.getD 0) = some i ∧
          trials[j]? = some (windowSlice data (i : ℚ) min_max) := by
  induction ref_ts generalizing trials with
  | nil =>
    obtain rfl : trials = [] := by simpa [extractTs] using h.symm
    simp
  | cons event rest ih =>
    cases hw : npWhereFirst data.timestamps event with
    | none => simp [extractTs, hw] at h
    | some i =>
      simp only [extractTs, hw, Option.map_eq_some'] at h
      obtain ⟨rest_trials, hrest, rfl⟩ := h
      obtain ⟨hlen, hspec⟩ := ih rest_trials hrest
      refine ⟨by simp [hlen], ?_⟩
      intro j hj
      cases j with
      | zero => exact ⟨i, by simpa using hw, by simp⟩
      | succ j' =>
        obtain ⟨i', hi', hrow⟩ := hspec j' (by simpa using hj)
        exact ⟨i', by simpa using hi', by simpa using hrow⟩

theorem length_le_maxLen {α : Type} {trials : List (List α)} {row : List α}
    (h : row ∈ trials) : row.length ≤ maxLen trials := by
  induction trials with
  | nil => simp at h
  | cons r rest ih =>
    rcases List.mem_cons.mp h with rfl | h'
    · simp [maxLen]
    · exact le_trans (ih h') (by simp [maxLen])

theorem padRow_length {α : Type} {w : ℕ} {row : List α} (h : row.length ≤ w) :
    (padRow w row).length = w := by
  simp [padRow]
  omega

theorem toTrialMatrix_length {α : Type} (trials : List (List α)) :
    (toTrialMatrix trials).length = trials.length := by
  simp [toTrialMatrix]

theorem toTrialMatrix_getElem {α : Type} (trials : List (List α)) (j : ℕ)
    (hj : j < trials.length) :
    (toTrialMatrix trials)[j]? = some (padRow (maxLen trials) trials[j]) := by
  simp [toTrialMatrix, List.getElem?_map, List.getElem?_eq_getElem hj]

/-! ## Claims about event-window extraction -/

/-- Claim C4 (confirmed): in timestamp mode each reference point is resolved
to the index of the first exact match in the timestamps sequence, and if some
reference point has no exact match the whole call returns nothing (the numpy
`IndexError` aborts `cont_var_peh`), so no partial trial matrix is produced. -/
theorem c4_timestamp_lookup {α : Type} (data : cont_var α) (ref_ts : List ℚ)
    (min_max : ℚ × ℚ) (name : Option String) :
    (cont_var_peh data ref_ts min_max name false = none ↔
      ∃ r ∈ ref_ts, r ∉ data.timestamps) ∧
    ∀ trials, extractTs data ref_ts min_max = some trials →
      trials.length = ref_ts.length ∧
      ∀ j, j < ref_ts.length →
        ∃ i, npWhereFirst data.timestamps (ref_ts[j]?.getD 0) = some i ∧
          data.timestamps[i]? = some (ref_ts[j]?.getD 0) ∧
          (∀ k, k < i → data.timestamps[k]? ≠ some (ref_ts[j]?.getD 0)) ∧
          trials[j]? = some (windowSlice data (i : ℚ) min_max) := by
  constructor
  · simp only [cont_var_peh, extractTrials, Bool.false_eq_true, if_false,
      Option.map_eq_none']
    rw [extractTs_eq_none_iff]
    exact exists_congr fun r => and_congr_right fun _ => npWhereFirst_eq_none_iff _ r
  · intro trials htr
    obtain ⟨hlen, hspec⟩ := extractTs_some_spec data ref_ts min_max trials htr
    refine ⟨hlen, ?_⟩
    intro j hj
    obtain ⟨i, hi, hrow⟩ := hspec j hj
    obtain ⟨hget, hfirst⟩ := (npWhereFirst_eq_some_iff _ _ _).mp hi
    exact ⟨i, hi, hget, hfirst, hrow⟩

/-- Witness for C4: the reference timestamp `5.0` does not occur on the
axis `0.0, 0.1, ..., 1.4`, so the whole call returns nothing. -/
theorem c4_timestamp_lookup_witness :
    cont_var_peh dataC3 [5] (1, 1) none false = none :=
  (c4_timestamp_lookup dataC3 [5] (1, 1) none).1.mpr
    ⟨5, by simp, by norm_num [dataC3]⟩

/-- Claim C5 (confirmed): a successful extraction returns one row per input
reference point (in input order, the rows of `extractTrials`), the column
count is the maximum extracted row length, and positions beyond a shorter
row's length hold the missing-value marker. -/
theorem c5_trial_matrix_shape {α : Type} (data : cont_var α) (ref_ts : List ℚ)
    (min_max : ℚ × ℚ) (name : Option String) (idx : Bool) (trials : List (List α))
    (h : extractTrials data ref_ts min_max idx = some trials) :
    cont_var_peh data ref_ts min_max name idx = some (toTrialMatrix trials) ∧
    (toTrialMatrix trials).length = ref_ts.length ∧
    (∀ row ∈ toTrialMatrix trials, row.length = maxLen trials) ∧
    ∀ j, j < trials.length →
      (toTrialMatrix trials)[j]? =
        some ((trials[j]?.getD []).map some ++
          List.replicate (maxLen trials - (trials[j]?.getD []).length) none) := by
  have hlen : trials.length = ref_ts.length := by
    cases idx with
    | false => exact (extractTs_some_spec data ref_ts min_max trials
        (by simpa [extractTrials] using h)).1
    | true =>
      have h' : some (ref_ts.map fun event => windowSlice data event min_max) =
          some trials := by simpa [extractTrials] using h
      obtain rfl : (ref_ts.map fun event => windowSlice data event min_max) = trials :=
        Option.some.injEq _ _ ▸ (by simpa using h')
      simp
  refine ⟨by simp [cont_var_peh, h], by simp [toTrialMatrix_length, hlen], ?_, ?_⟩
  · intro row hrow
    obtain ⟨r, hr, rfl⟩ := List.mem_map.mp hrow
    exact padRow_length (length_le_maxLen hr)
  · intro j hj
    rw [toTrialMatrix_getElem trials j hj]
    simp [padRow, List.getElem?_eq_getElem hj]

/-- Witness for C5: two index-mode reference points, the second of which
yields an empty row (start index 18 past the end of a ten-sample signal);
the resulting matrix has two rows and the short row is all markers. -/
theorem c5_trial_matrix_shape_witness :
    cont_var_peh dataC1 [5, 20] (1, 1) none true =
      some (toTrialMatrix [[(3 : ℚ), 4, 5, 6], []]) :=
  (c5_trial_matrix_shape dataC1 [5, 20] (1, 1) none true [[(3 : ℚ), 4, 5, 6], []]
    (by
      norm_num [extractTrials, windowSlice, dataC1, pyInt, pySlice, abs_of_nonneg]
      rfl)).1

/-- Claim C10 (confirmed): index mode performs no bounds validation — for
every list of reference indices, including negative ones and ones at or past
the signal length, the call succeeds and each row is exactly what the
Python slice yields. -/
theorem c10_index_mode_no_validation {α : Type} (data : cont_var α) (ref_ts : List ℚ)
    (min_max : ℚ × ℚ) (name : Option String) :
    extractTrials data ref_ts min_max true =
      some (ref_ts.map fun event => windowSlice data event min_max) ∧
    cont_var_peh data ref_ts min_max name true =
      some (toTrialMatrix (ref_ts.map fun event => windowSlice data event min_max)) ∧
    (cont_var_peh data ref_ts min_max name true).isSome = true := by
  refine ⟨by simp [extractTrials], by simp [cont_var_peh, extractTrials], ?_⟩
  simp [cont_var_peh, extractTrials]

/-- Claim C1 fails on the code: with resolved index `i = 5`, window bound
`before = 1.25` and sampling rate 2, the code slices from
`int(5 - 2.5) = 2`, while the claim's `start = i - floor(|before|*sr)`
gives `5 - 2 = 3`; the extracted row `[2,3,4,5,6]` differs from the
claimed `signal[3:7] = [3,4,5,6]`. -/
theorem c1_start_floor_counterexample :
    extractTrials dataC1 [5] (5/4, 1) true = some [[2, 3, 4, 5, 6]] ∧
    pySlice dataC1.signal ((5 : ℤ) - ⌊|(5/4 : ℚ)| * dataC1.sr⌋)
      ((5 : ℤ) + ⌊|(1 : ℚ)| * dataC1.sr⌋) = [3, 4, 5, 6] ∧
    ([[(2 : ℚ), 3, 4, 5, 6]] : List (List ℚ)) ≠ [[3, 4, 5, 6]] := by
  refine ⟨?_, ?_, ?_⟩
  · norm_num [extractTrials, windowSlice, dataC1, pyInt, pySlice, abs_of_nonneg]
    rfl
  · norm_num [dataC1, pySlice, abs_of_nonneg]
    rfl
  · norm_num

/-- Claim C1 (amended): the integer cast truncates the combined expression
`i ∓ |bound| * samplingRate` toward zero, not the window-sample count alone.
With a nonnegative sampling rate and a resolved index `i` at least
`|before| * samplingRate`, this makes `start = i - ⌈|before|*sr⌉` (a
ceiling, not the claimed floor) while `end = i + ⌊|after|*sr⌋` as claimed;
negative window bounds are still replaced by their absolute values. -/
theorem c1_window_arithmetic_amended {α : Type} (data : cont_var α) (min_max : ℚ × ℚ)
    (i : ℕ) (hsr : 0 ≤ data.sr) (hle : |min_max.1| * data.sr ≤ (i : ℚ)) :
    windowSlice data (i : ℚ) min_max =
      pySlice data.signal ((i : ℤ) - ⌈|min_max.1| * data.sr⌉)
        ((i : ℤ) + ⌊|min_max.2| * data.sr⌋) := by
  have ha : (0 : ℚ) ≤ |min_max.2| * data.sr := mul_nonneg (abs_nonneg _) hsr
  have hcast : ((i : ℕ) : ℚ) = ((i : ℤ) : ℚ) := by push_cast; ring
  have h1 : pyInt ((i : ℚ) - |min_max.1| * data.sr) =
      (i : ℤ) - ⌈|min_max.1| * data.sr⌉ := by
    rw [pyInt, if_neg (not_lt.mpr (by linarith))]
    rw [show ((i : ℕ) : ℚ) - |min_max.1| * data.sr =
        ((i : ℤ) : ℚ) + -(|min_max.1| * data.sr) by rw [← hcast]; ring]
    rw [Int.floor_int_add, Int.floor_neg]
    ring
  have h2 : pyInt ((i : ℚ) + |min_max.2| * data.sr) =
      (i : ℤ) + ⌊|min_max.2| * data.sr⌋ := by
    have hi0 : (0 : ℚ) ≤ (i : ℚ) := Nat.cast_nonneg i
    rw [pyInt, if_neg (not_lt.mpr (by linarith))]
    rw [show ((i : ℕ) : ℚ) + |min_max.2| * data.sr =
        ((i : ℤ) : ℚ) + |min_max.2| * data.sr by rw [← hcast]]
    rw [Int.floor_int_add]
  rw [windowSlice, h1, h2]

/-- Witness for the amended C1 at the counterexample's input: index 5,
window `(1.25, 1.0)`, sampling rate 2. -/
theorem c1_window_arithmetic_witness :
    windowSlice dataC1 ((5 : ℕ) : ℚ) (5/4, 1) =
      pySlice dataC1.signal (((5 : ℕ) : ℤ) - ⌈|(5/4 : ℚ)| * dataC1.sr⌉)
        (((5 : ℕ) : ℤ) + ⌊|(1 : ℚ)| * dataC1.sr⌋) :=
  c1_window_arithmetic_amended dataC1 (5/4, 1) 5 (by norm_num [dataC1])
    (by norm_num [dataC1, abs_of_nonneg])

/-- The timestamp axis `0.0, 0.1, ..., 9.9` of the spec's round-trip test. -/
def tsAxis : List ℚ := (List.range 100).map fun k : ℕ => (k : ℚ) / 10

/-- A concrete length-100 signal, `signal[k] = k`. -/
def sigW : List ℚ := (List.range 100).map fun k : ℕ => (k : ℚ)

/-- Claim C2 (confirmed): on a length-100 signal at sampling rate 10 with
timestamps `0.0, ..., 9.9`, the reference timestamp `5.0` with window
`(1.0, 1.0)` extracts the single row `signal[40:60]`, of length 20. -/
theorem c2_roundtrip (sig : List ℚ) (h : sig.length = 100) :
    extractTs (⟨10, sig, tsAxis, none, none⟩ : cont_var ℚ) [5] (1, 1) =
      some [(sig.take 60).drop 40] ∧
    ((sig.take 60).drop 40).length = 20 ∧
    cont_var_peh (⟨10, sig, tsAxis, none, none⟩ : cont_var ℚ) [5] (1, 1) none false =
      some [((sig.take 60).drop 40).map some] := by
  have haxis : ∀ k : ℕ, k < 100 → tsAxis[k]? = some ((k : ℚ) / 10) := by
    intro k hk
    rw [tsAxis, List.getElem?_map, List.getElem?_range hk]
    rfl
  have hfind : npWhereFirst tsAxis 5 = some 50 := by
    rw [npWhereFirst_eq_some_iff]
    refine ⟨by rw [haxis 50 (by omega)]; norm_num, ?_⟩
    intro k hk
    rw [haxis k (by omega)]
    intro hkq
    have h5 : (k : ℚ) / 10 = 5 := Option.some.inj hkq
    have hk50 : (k : ℚ) = 50 := by field_simp at h5; linarith
    have : k = 50 := by exact_mod_cast hk50
    omega
  have hwin : windowSlice (⟨10, sig, tsAxis, none, none⟩ : cont_var ℚ)
      ((50 : ℕ) : ℚ) (1, 1) = (sig.take 60).drop 40 := by
    have h1 : pyInt (((50 : ℕ) : ℚ) - |(1 : ℚ)| * 10) = 40 := by
      norm_num [pyInt, abs_of_nonneg]
    have h2 : pyInt (((50 : ℕ) : ℚ) + |(1 : ℚ)| * 10) = 60 := by
      norm_num [pyInt, abs_of_nonneg]
    rw [windowSlice]
    show pySlice sig _ _ = _
    rw [h1, h2]
    simp [pySlice, h]
  have hextr : extractTs (⟨10, sig, tsAxis, none, none⟩ : cont_var ℚ) [5] (1, 1) =
      some [(sig.take 60).drop 40] := by
    simp only [extractTs, hfind]
    simpa [extractTs] using hwin
  refine ⟨hextr, ?_, ?_⟩
  · simp [List.length_drop, List.length_take, h]
  · have hextr' : extractTrials (⟨10, sig, tsAxis, none, none⟩ : cont_var ℚ) [5] (1, 1)
        false = some [(sig.take 60).drop 40] := by
      unfold extractTrials
      rw [if_neg Bool.false_ne_true]
      exact hextr
    rw [cont_var_peh, hextr', Option.map_some']
    simp [toTrialMatrix, maxLen, padRow]

/-- Witness for C2 at the concrete signal `signal[k] = k`. -/
theorem c2_roundtrip_witness :
    extractTs (⟨10, sigW, tsAxis, none, none⟩ : cont_var ℚ) [5] (1, 1) =
      some [(sigW.take 60).drop 40] ∧
    ((sigW.take 60).drop 40).length = 20 ∧
    cont_var_peh (⟨10, sigW, tsAxis, none, none⟩ : cont_var ℚ) [5] (1, 1) none false =
      some [((sigW.take 60).drop 40).map some] :=
  c2_roundtrip sigW (by rw [sigW, List.length_map, List.length_range])

/-- Claim C3 fails on the code: on a fifteen-sample signal with timestamps
`0.0, ..., 1.4`, the reference timestamp `0.2` with window `(1.0, 1.0)`
computes `start = -8`, which Python slicing wraps to index `15 - 8 = 7`:
the row is `[7, 8, 9, 10, 11]`, samples from near the end of the signal,
not the left-edge truncation `signal[0:12] = [0, ..., 11]`. -/
theorem c3_left_truncation_counterexample :
    extractTs dataC3 [2/10] (1, 1) = some [[7, 8, 9, 10, 11]] ∧
    cont_var_peh dataC3 [2/10] (1, 1) none false =
      some [[some 7, some 8, some 9, some 10, some 11]] ∧
    dataC3.signal.take 12 = [0, 1, 2, 3, 4, 5, 6, 7, 8, 9, 10, 11] ∧
    ([[(7 : ℚ), 8, 9, 10, 11]] : List (List ℚ)) ≠
      [[0, 1, 2, 3, 4, 5, 6, 7, 8, 9, 10, 11]] := by
  have h1 : extractTs dataC3 [2/10] (1, 1) = some [[7, 8, 9, 10, 11]] := by
    norm_num [extractTs, npWhereFirst, dataC3, windowSlice, pyInt, pySlice, abs_of_nonneg]
    rfl
  refine ⟨h1, ?_, ?_, ?_⟩
  · have h1' : extractTrials dataC3 [2/10] (1, 1) false = some [[(7 : ℚ), 8, 9, 10, 11]] := by
      unfold extractTrials
      rw [if_neg Bool.false_ne_true]
      exact h1
    rw [cont_var_peh, h1', Option.map_some']
    simp [toTrialMatrix, maxLen, padRow]
  · norm_num [dataC3]
  · norm_num

/-- Claim C3 (amended): when the computed start index is negative, Python
slice semantics shift it by the signal length (then clamp at 0) instead of
truncating at the left edge: the row is
`signal[max(len+start, 0) : end]`, which consists of samples from near the
end of the signal, and is empty whenever `end ≤ len + start` — in
particular the spec's own length-100 example yields an empty row. -/
theorem c3_negative_start_amended {α : Type} (sig : List α) (s e : ℤ)
    (hs : s < 0) (he : 0 ≤ e) :
    pySlice sig s e = (sig.take e.toNat).drop ((sig.length : ℤ) + s).toNat ∧
    (e ≤ (sig.length : ℤ) + s → pySlice sig s e = []) := by
  have hmain : pySlice sig s e =
      (sig.take e.toNat).drop ((sig.length : ℤ) + s).toNat := by
    simp only [pySlice]
    rw [if_pos hs, if_neg (not_lt.mpr he)]
    have h1 : (max ((sig.length : ℤ) + s) 0).toNat = ((sig.length : ℤ) + s).toNat := by
      omega
    have h2 : sig.take (min e (sig.length : ℤ)).toNat = sig.take e.toNat := by
      apply List.take_eq_take.mpr
      omega
    rw [h1, h2]
  refine ⟨hmain, fun hle => ?_⟩
  rw [hmain]
  rw [List.drop_eq_nil_iff]
  simp only [List.length_take]
  omega

/-- Witness for the amended C3 on the spec's length-100 boundary example:
`start = -8`, `end = 12`, so the slice starts at wrapped index 92 and the
row is empty. -/
theorem c3_negative_start_witness :
    pySlice sigW (-8) 12 = (sigW.take ((12 : ℤ)).toNat).drop ((sigW.length : ℤ) + -8).toNat ∧
    ((12 : ℤ) ≤ (sigW.length : ℤ) + -8 → pySlice sigW (-8) 12 = []) :=
  c3_negative_start_amended sigW (-8) 12 (by decide) (by decide)

/-! ## Helper lemmas about the conditioning model -/

theorem finVals_map_fin (xs : List ℝ) : finVals (xs.map PyFloat.fin) = some xs := by
  induction xs with
  | nil => rfl
  | cons x rest ih => simp [finVals, ih]

theorem finVals_length {l : List PyFloat} {xs : List ℝ} (h : finVals l = some xs) :
    xs.length = l.length := by
  induction l generalizing xs with
  | nil =>
    simp only [finVals, Option.some.injEq] at h
    subst h
    rfl
  | cons v rest ih =>
    cases v with
    | fin x =>
      simp only [finVals, Option.map_eq_some'] at h
      obtain ⟨ys, hys, rfl⟩ := h
      simp [ih hys]
    | nonfin => simp [finVals] at h

theorem sum_of_all_eq {xs : List ℝ} {c : ℝ} (h : ∀ x ∈ xs, x = c) :
    xs.sum = c * xs.length := by
  induction xs with
  | nil => simp
  | cons x rest ih =>
    have hx : x = c := h x (by simp)
    have hr : rest.sum = c * rest.length := ih fun y hy => h y (by simp [hy])
    simp only [List.sum_cons, hx, hr, List.length_cons]
    push_cast
    ring

theorem popMean_const {xs : List ℝ} {c : ℝ} (hne : xs ≠ []) (h : ∀ x ∈ xs, x = c) :
    popMean xs = c := by
  have hn : (xs.length : ℝ) ≠ 0 :=
    Nat.cast_ne_zero.mpr (Nat.pos_iff_ne_zero.mp (List.length_pos.mpr hne))
  rw [popMean, sum_of_all_eq h, mul_div_cancel_right₀ c hn]

theorem popVar_const {xs : List ℝ} {c : ℝ} (hne : xs ≠ []) (h : ∀ x ∈ xs, x = c) :
    popVar xs = 0 := by
  rw [popVar]
  have hzero : ∀ y ∈ xs.map (fun x => (x - popMean xs) ^ 2), y = (0 : ℝ) := by
    intro y hy
    obtain ⟨x, hx, rfl⟩ := List.mem_map.mp hy
    rw [h x hx, popMean_const hne h]
    ring
  rw [sum_of_all_eq hzero]
  simp

theorem popVar_pos {xs : List ℝ} (hne : xs ≠ []) (a b : ℝ) (ha : a ∈ xs) (hb : b ∈ xs)
    (hab : a ≠ b) : 0 < popVar xs := by
  have key : ∃ x ∈ xs, x ≠ popMean xs := by
    by_contra hcon
    push_neg at hcon
    exact hab ((hcon a ha).trans (hcon b hb).symm)
  obtain ⟨x, hx, hxm⟩ := key
  have hterm : 0 < (x - popMean xs) ^ 2 :=
    lt_of_le_of_ne (sq_nonneg _) (Ne.symm (pow_ne_zero 2 (sub_ne_zero.mpr hxm)))
  have hmem : (x - popMean xs) ^ 2 ∈ xs.map fun y => (y - popMean xs) ^ 2 :=
    List.mem_map_of_mem _ hx
  have hsum : (x - popMean xs) ^ 2 ≤ (xs.map fun y => (y - popMean xs) ^ 2).sum :=
    List.single_le_sum
      (fun y hy => by obtain ⟨z, _, rfl⟩ := List.mem_map.mp hy; exact sq_nonneg _) _ hmem
  have hn : (0 : ℝ) < xs.length := by exact_mod_cast List.length_pos.mpr hne
  exact div_pos (lt_of_lt_of_le hterm hsum) hn

theorem zscoreList_length (l : List PyFloat) : (zscoreList l).length = l.length := by
  rcases hf : finVals l with _ | xs
  · simp [zscoreList, hf]
  · simp [zscoreList, hf, finVals_length hf]

/-! ## Claims about the conditioning operations -/

/-- Claim C6 (confirmed): `zscore` replaces each sample `x` of the signal
with `(x - mean) / std` where mean and std are the population mean and
population standard deviation (no Bessel correction); on a constant signal
`std = 0` and every output sample is non-finite (numpy emits `0/0 = NaN`
without raising), while on a non-constant signal every output is the finite
standardized value. -/
theorem c6_zscore_population (p : cont_var PyFloat) (xs : List ℝ)
    (hsig : p.signal = xs.map PyFloat.fin) (hne : xs ≠ []) :
    ((∀ x ∈ xs, ∀ y ∈ xs, x = y) →
      (zscore p).signal = xs.map fun _ => PyFloat.nonfin) ∧
    ((∃ x ∈ xs, ∃ y ∈ xs, x ≠ y) →
      (zscore p).signal = xs.map fun x => PyFloat.fin ((x - popMean xs) / popStd xs)) := by
  have hz : (zscore p).signal = zscoreList (xs.map PyFloat.fin) := by
    simp only [zscore]
    rw [hsig]
  constructor
  · intro hconst
    obtain ⟨c, hc⟩ : ∃ c, c ∈ xs := List.exists_mem_of_ne_nil xs hne
    have hallc : ∀ x ∈ xs, x = c := fun x hx => hconst x hx c hc
    have hstd : popStd xs = 0 := by
      rw [popStd, popVar_const hne hallc, Real.sqrt_zero]
    rw [hz]
    simp only [zscoreList, finVals_map_fin]
    simp [hstd]
  · rintro ⟨a, ha, b, hb, hab⟩
    have hstd : popStd xs ≠ 0 := by
      rw [popStd]
      exact ne_of_gt (Real.sqrt_pos.mpr (popVar_pos hne a b ha hb hab))
    rw [hz]
    simp only [zscoreList, finVals_map_fin]
    simp [hstd]

/-- Witness for C6 on the constant two-sample signal `[2, 2]`: every output
sample is non-finite. -/
theorem c6_zscore_population_witness :
    (zscore zp0).signal = [(2 : ℝ), 2].map fun _ => PyFloat.nonfin :=
  (c6_zscore_population zp0 [2, 2] rfl (by simp)).1 (by
    intro x hx y hy
    simp at hx hy
    rw [hx, hy])

/-- Claim C7 (confirmed): each conditioning operation replaces the signal
with a sequence of the same length and touches nothing else, so
`len(signal) = len(timestamps)` is preserved.  For `debleach` and
`lp_filter` this relies on the scipy facility's contract that `filtfilt`
returns an output of the input's length, stated here as a hypothesis on the
abstract facility. -/
theorem c7_length_invariant (flib : FilterLib)
    (hfl : ∀ c pt s, (flib.filtfilt c pt s).length = s.length)
    (p : cont_var PyFloat) (low high : ℚ)
    (hinv : p.signal.length = p.timestamps.length) :
    ((debleach flib p low).signal.length = (debleach flib p low).timestamps.length) ∧
    ((lp_filter flib p high).signal.length = (lp_filter flib p high).timestamps.length) ∧
    ((zscore p).signal.length = (zscore p).timestamps.length) := by
  refine ⟨?_, ?_, ?_⟩
  · simpa [debleach, hfl] using hinv
  · simpa [lp_filter, hfl] using hinv
  · simpa [zscore, zscoreList_length] using hinv

/-- Witness for C7 at a concrete recording and the identity filtering
facility. -/
theorem c7_length_invariant_witness :
    ((debleach flib0 zp0 1).signal.length = (debleach flib0 zp0 1).timestamps.length) ∧
    ((lp_filter flib0 zp0 1).signal.length = (lp_filter flib0 zp0 1).timestamps.length) ∧
    ((zscore zp0).signal.length = (zscore zp0).timestamps.length) :=
  c7_length_invariant flib0 (fun _ _ _ => rfl) zp0 1 1 rfl

/-- Claim C8 (confirmed): `debleach`, `lp_filter` and `zscore` change only
the `signal` field — sampling rate, timestamps, name and annotations are
untouched — and return the updated instance itself (in-place mutation of
`self` is modelled as a record update), so calls chain. -/
theorem c8_conditioning_frame (flib : FilterLib) (p : cont_var PyFloat) (low high : ℚ) :
    ((debleach flib p low).sr = p.sr ∧ (debleach flib p low).timestamps = p.timestamps ∧
      (debleach flib p low).name = p.name ∧
      (debleach flib p low).annotations = p.annotations) ∧
    ((lp_filter flib p high).sr = p.sr ∧ (lp_filter flib p high).timestamps = p.timestamps ∧
      (lp_filter flib p high).name = p.name ∧
      (lp_filter flib p high).annotations = p.annotations) ∧
    ((zscore p).sr = p.sr ∧ (zscore p).timestamps = p.timestamps ∧
      (zscore p).name = p.name ∧ (zscore p).annotations = p.annotations) :=
  ⟨⟨rfl, rfl, rfl, rfl⟩, ⟨rfl, rfl, rfl, rfl⟩, ⟨rfl, rfl, rfl, rfl⟩⟩

/-- Claim C9 (confirmed): `debleach` applies the facility's Butterworth
design of order 3, high-pass, with the cutoff passed directly alongside
`fs = samplingRate` (not pre-normalized), through the zero-phase
forward-backward filter with even padding; `lp_filter` does the same with a
low-pass design.  Order, filter type, zero-phase application and padding are
fixed in the call and not parameters of the methods. -/
theorem c9_filter_design_fixed (flib : FilterLib) (p : cont_var PyFloat) (low high : ℚ) :
    (debleach flib p low).signal =
      flib.filtfilt (flib.butter 3 low BType.high p.sr) PadType.even p.signal ∧
    (lp_filter flib p high).signal =
      flib.filtfilt (flib.butter 3 high BType.low p.sr) PadType.even p.signal :=
  ⟨rfl, rfl⟩
